import Mathlib

set_option maxHeartbeats 1000000

namespace Conagua

/-!
Shallow embedding of the `conagua-presas` repository.

The repository is a small data-journalism pipeline: `downloader.py` fetches one
JSON snapshot per calendar day from the CONAGUA API and consolidates them into
yearly CSV tables; `velas_individual.py`, `velas_multiple.py` and
`velas_multiples.py` turn the daily total-storage series into monthly OHLC
(candlestick) tables; `tabla_estatal.py` builds a per-state percentage-fill
table.  Python `datetime` dates are modelled by their proleptic-Gregorian day
ordinal (an `Int`), converted to and from `(year, month, day)` triples with the
standard civil-calendar algorithms; pandas frames are modelled as typed column
lists or as lists of readings; the filesystem is an association list from file
names to file contents.
-/

/-! ### Calendar model (proleptic Gregorian, as used by Python `datetime`) -/

/-- Day ordinal of a civil date `(y, m, d)`: the number of days since the epoch
1970-01-01.  This is the standard civil-from-date algorithm; Python `datetime`
arithmetic (`datetime(y, m, d)`, `+ timedelta(days=i)`, subtraction) is modelled
on these ordinals. -/
def daysFromCivil (y m d : Int) : Int :=
  let y2 := if m ≤ 2 then y - 1 else y
  let era := y2 / 400
  let yoe := y2 - era * 400
  let mp := (m + 9) % 12
  let doy := (153 * mp + 2) / 5 + d - 1
  let doe := yoe * 365 + yoe / 4 - yoe / 100 + doy
  era * 146097 + doe - 719468

/-- Inverse of `daysFromCivil`: the `(year, month, day)` components of a day
ordinal.  Models reading `.year`, `.month`, `.day` off a Python `datetime`. -/
def civilFromDays (z0 : Int) : Int × Int × Int :=
  let z := z0 + 719468
  let era := z / 146097
  let doe := z - era * 146097
  let yoe := (doe - doe / 1460 + doe / 36524 - doe / 146096) / 365
  let y := yoe + era * 400
  let doy := doe - (365 * yoe + yoe / 4 - yoe / 100)
  let mp := (5 * doy + 2) / 153
  let d := doy - (153 * mp + 2) / 5 + 1
  let m := if mp < 10 then mp + 3 else mp - 9
  (if m ≤ 2 then y + 1 else y, m, d)

/-- Python `str(n).zfill(2)`: pad a decimal numeral to at least two characters
with leading zeros. -/
def zfill2 (n : Int) : String :=
  if n < 10 then "0" ++ toString n else toString n

/-- The date format used by `downloader.descargar`:
`f"{y}-{str(m).zfill(2)}-{str(d).zfill(2)}"`. -/
def formatDate : Int × Int × Int → String
  | (y, m, d) => toString y ++ "-" ++ zfill2 m ++ "-" ++ zfill2 d

/-- Model of `URL_BASE.format(fecha)` with
`URL_BASE = "https://sinav30.conagua.gob.mx:8080/PresasPG/presas/reporte/..."`:
the placeholder sits at the end of the template, so formatting is appending. -/
def urlFor (fecha : String) : String :=
  "https://sinav30.conagua.gob.mx:8080/PresasPG/presas/reporte/" ++ fecha

/-! ### `downloader.descargar` -/

/-- Python `open(f"./archivos/{n}", "w").write(c)` over an association-list
filesystem (one entry per file name): overwrite the entry if the name exists,
else append a new entry (new names appear at the end of the directory
listing). -/
def writeFile : List (String × String) → String → String → List (String × String)
  | [], n, c => [(n, c)]
  | (k, v) :: ps, n, c => if k = n then (n, c) :: ps else (k, v) :: writeFile ps n c

/-- The list of date strings enumerated by `descargar(año)`:
`fecha_inicio = datetime(año, 1, 1)`, `fecha_fin = datetime.today()`,
`dias = (fecha_fin - fecha_inicio).days`, and the loop runs over `range(dias)`
formatting `fecha_inicio + timedelta(days=i)`.  The current moment is the pair
`(todayOrd, todaySecs)`: day ordinal plus seconds elapsed since midnight;
`timedelta.days` is floor division of the total seconds by 86400. -/
def fechasDescarga (anio todayOrd todaySecs : Int) : List String :=
  let inicio := daysFromCivil anio 1 1
  let dias := Int.fdiv (todayOrd * 86400 + todaySecs - inicio * 86400) 86400
  (List.range dias.toNat).map (fun i => formatDate (civilFromDays (inicio + (i : Int))))

/-- One iteration of the download loop, threading the filesystem and the log
of issued requests: `if nombre_archivo not in archivos_guardados:` download
and write, else skip.  `saved` is the `./archivos` listing taken once at the
start of the call. -/
def pasoDescarga (saved : List String) (fetch : String → String)
    (st : List (String × String) × List String) (fechaStr : String) :
    List (String × String) × List String :=
  let nombre := fechaStr ++ ".json"
  if nombre ∈ saved then st
  else (writeFile st.1 nombre (fetch (urlFor fechaStr)), st.2 ++ [urlFor fechaStr])

/-- Model of `downloader.descargar(año)` run at the moment `(todayOrd, todaySecs)`.
`fetch` maps a URL to the raw body of the HTTP GET response.  The function
lists `./archivos` once at the start (`archivos_guardados`), then for every
enumerated date whose file name is not in that initial listing it issues one
GET and writes the raw response body to `f"./archivos/{nombre}"`.  Returns the
final filesystem and the log of requested URLs, in order. -/
def descargar (anio todayOrd todaySecs : Int) (fetch : String → String)
    (files : List (String × String)) : List (String × String) × List String :=
  (fechasDescarga anio todayOrd todaySecs).foldl
    (pasoDescarga (files.map Prod.fst) fetch) (files, [])

/-! ### `downloader.combinar` -/

/-- A dataframe column: either a text (pandas `object` dtype) column or a
numeric column.  The per-day JSON files produced by the fixed CONAGUA API all
share one schema of homogeneously typed columns, which this type captures. -/
inductive Col where
  | text (vals : List String)
  | num (vals : List ℚ)
deriving DecidableEq

/-- A dataframe is its list of columns; all columns have equal length. -/
abbrev DF := List Col

/-- Whether a column has pandas dtype `object` (text). -/
def Col.isText : Col → Bool
  | .text _ => true
  | .num _ => false

/-- Row-stacking of two same-typed columns (the column-wise effect of
`pd.concat(dfs, axis=0)` on frames sharing a schema). -/
def appendCol : Col → Col → Option Col
  | .text a, .text b => some (.text (a ++ b))
  | .num a, .num b => some (.num (a ++ b))
  | _, _ => none

/-- Model of `pd.concat([a, b], axis=0)` for two frames with the same column schema:
stack column by column; frames with differing schemas are out of the model. -/
def concat2 : DF → DF → Option DF
  | [], [] => some []
  | a :: as, b :: bs => do
    let c ← appendCol a b
    let cs ← concat2 as bs
    pure (c :: cs)
  | _, _ => none

/-- Model of `pd.concat(dfs, axis=0)`; raises (here: `none`) on an empty list. -/
def concatAll : List DF → Option DF
  | [] => none
  | d :: ds => ds.foldlM concat2 d

/-- Python `str.strip()`: drop leading and trailing whitespace characters. -/
def pyStrip (s : String) : String :=
  String.mk (((s.toList.dropWhile Char.isWhitespace).reverse.dropWhile
    Char.isWhitespace).reverse)

/-- One step of the cleaning loop of `combinar`: a column of dtype `object`
has each of its values stripped (`final[col] = final[col].str.strip()`); other
columns are untouched. -/
def stripCol : Col → Col
  | .text vs => .text (vs.map pyStrip)
  | x => x

/-- The cleaning loop of `combinar` over the whole consolidated frame. -/
def stripDF (df : DF) : DF := df.map stripCol

/-- The values of a text column (empty for a numeric column). -/
def textVals : Col → List String
  | .text vs => vs
  | .num _ => []

/-- The values of a numeric column (empty for a text column). -/
def numVals : Col → List ℚ
  | .num vs => vs
  | .text _ => []

/-- The `j`-th column of a frame (a fresh empty column out of range). -/
def colAt (df : DF) (j : Nat) : Col := df.getD j (.num [])

/-- Character equality lifted to a prefix test on character lists. -/
def charsHavePrefix : List Char → List Char → Bool
  | [], _ => true
  | _ :: _, [] => false
  | a :: as, b :: bs => a == b && charsHavePrefix as bs

/-- Substring occurrence test on character lists. -/
def charsContain (needle : List Char) : List Char → Bool
  | [] => needle.isEmpty
  | b :: bs => charsHavePrefix needle (b :: bs) || charsContain needle bs

/-- Python's `needle in hay` on strings. -/
def strContains (hay needle : String) : Bool :=
  charsContain needle.toList hay.toList

/-- Model of `downloader.combinar(año)`: iterate over the `./archivos` listing, keep the
files whose name contains `str(año)`, load each one, stack them in listing
order, and strip whitespace from every text column.  `archivos` is the
directory listing paired with each file's parsed frame; the result is the
consolidated table written to `./data/{año}.csv` (`none` models the
`pd.concat` error when no file matches). -/
def combinar (anio : Int) (archivos : List (String × DF)) : Option DF :=
  let sel := (archivos.filter (fun a => strContains a.1 (toString anio))).map Prod.snd
  (concatAll sel).map stripDF

/-! ### Monthly OHLC pipelines (`velas_individual.py`, `velas_multiple.py`,
`velas_multiples.py`)

The daily total-storage series built at the top of each `plot_candle`
(`pivot_table` on `fechamonitoreo`, then `df["total"] = df.sum(axis=1)`) is a
chronologically ordered sequence of one total value per monitored day; it is
modelled as a list of readings tagged with their calendar year and month. -/

/-- One day of the daily total-storage series. -/
structure Reading where
  year : Nat
  month : Nat
  value : ℚ
deriving DecidableEq

/-- The daily total-storage series, in chronological (index) order. -/
abbrev Serie := List Reading

/-- A day of the smoothed series produced by `df.rolling(7).median()`: the
value is `none` where pandas leaves `NaN` (fewer than 7 observations). -/
structure ReadingO where
  year : Nat
  month : Nat
  value : Option ℚ
deriving DecidableEq

/-- One candlestick record (the four per-month summary statistics). -/
structure OHLC where
  open_ : ℚ
  high : ℚ
  low : ℚ
  close : ℚ
deriving DecidableEq

/-- The month bucket
`temp_df = df[(df.index.year == year) & (df.index.month == month)]["total"]`:
the values of the series falling in the given year and month, in series
order. -/
def monthSlice (s : Serie) (y m : Nat) : List ℚ :=
  (s.filter (fun r => r.year == y && r.month == m)).map (fun r => r.value)

/-- Model of `temp_df["total"].iloc[0]` — positional first; raises on an empty frame. -/
def ilocFirst (xs : List ℚ) : Option ℚ := xs.head?

/-- Model of `temp_df["total"].iloc[-1]` — positional last; raises on an empty frame. -/
def ilocLast (xs : List ℚ) : Option ℚ := xs.getLast?

/-- Model of `Series.max()` — maximum of the values (`NaN`/undefined when empty). -/
def maxVal : List ℚ → Option ℚ
  | [] => none
  | x :: xs => some (xs.foldl max x)

/-- Model of `Series.min()` — minimum of the values (`NaN`/undefined when empty). -/
def minVal : List ℚ → Option ℚ
  | [] => none
  | x :: xs => some (xs.foldl min x)

/-- The body of the `try:` block in `velas_individual.plot_candle` (and
`velas_multiple.plot_candle`): build the month's record from its bucket, in the
evaluation order of the dict literal; any failing step aborts the record. -/
def buildRec (xs : List ℚ) : Option OHLC := do
  let o ← ilocFirst xs
  let c ← ilocLast xs
  let h ← maxVal xs
  let l ← minVal xs
  pure ⟨o, h, l, c⟩

/-- The `(year, month)` pairs iterated by the explicit loop:
`for year in range(2010, 2025): for month in range(1, 13):`. -/
def monthPairs : List (Nat × Nat) :=
  (List.range' 2010 15).flatMap (fun y => (List.range' 1 12).map (fun m => (y, m)))

/-- The explicit per-month loop of `velas_individual.plot_candle` lines 92-111:
`data.append({...})` inside `try`, with `except Exception: pass` skipping the
month.  Returns the rows of `pd.DataFrame.from_records(data)`, each keyed by
its `fecha = datetime(year, month, 1)` as the `(year, month)` pair. -/
def loopRecords (s : Serie) : List ((Nat × Nat) × OHLC) :=
  monthPairs.foldl
    (fun acc ym =>
      match buildRec (monthSlice s ym.1 ym.2) with
      | some r => acc ++ [((ym.1, ym.2), r)]
      | none => acc)
    []

/-- The month bucket of a (possibly `NaN`-holding) smoothed series. -/
def monthSliceO (s : List ReadingO) (y m : Nat) : List (Option ℚ) :=
  (s.filter (fun r => r.year == y && r.month == m)).map (fun r => r.value)

/-- The row of `df["total"].resample("MS").ohlc()` for the month `(y, m)`
(`velas_multiples.plot_candle` line 194).  Pandas' `ohlc` aggregation computes
open, high, low and close of each monthly group excluding missing values; a
group with no non-missing value yields a `NaN` row, modelled as `none`. -/
def resampleOHLC (s : List ReadingO) (y m : Nat) : Option OHLC :=
  let vs := (monthSliceO s y m).filterMap id
  match vs.head?, vs.getLast?, maxVal vs, minVal vs with
  | some o, some c, some h, some l => some ⟨o, h, l, c⟩
  | _, _, _, _ => none

/-- Insert into a sorted list of rationals (helper for the rolling median). -/
def insertQ (x : ℚ) : List ℚ → List ℚ
  | [] => [x]
  | y :: ys => if x ≤ y then x :: y :: ys else y :: insertQ x ys

/-- Insertion sort on rationals. -/
def sortQ : List ℚ → List ℚ
  | [] => []
  | x :: xs => insertQ x (sortQ xs)

/-- The median of a 7-element window: the 4th-smallest value. -/
def median7 (xs : List ℚ) : ℚ := (sortQ xs).getD 3 0

/-- Model of `Series.rolling(7).median()`: position `i` of the output holds the median
of the window of the 7 values ending at position `i`; the first six positions
(windows with fewer than 7 observations) are `NaN`. -/
def rolling7vals (xs : List ℚ) : List (Option ℚ) :=
  (List.range xs.length).map (fun i =>
    if 6 ≤ i then some (median7 ((xs.drop (i - 6)).take 7)) else none)

/-- Model of `df = df.rolling(7).median()` applied to the daily total-storage series
(`velas_multiples.plot_candle` line 191): dates keep their place, values are
replaced by the rolling medians. -/
def smooth (s : Serie) : List ReadingO :=
  List.zipWith (fun (r : Reading) v => ReadingO.mk r.year r.month v) s
    (rolling7vals (s.map (fun r => r.value)))

/-- The OHLC stage of `velas_multiples.plot_candle` lines 188-194: smooth the
daily total series with a 7-row rolling median, then resample it into monthly
OHLC records.  Queried per month. -/
def velasMultiplesOHLC (s : Serie) (y m : Nat) : Option OHLC :=
  resampleOHLC (smooth s) y m

/-- Embed a `NaN`-free daily series into the optional-value type. -/
def toOptSerie (s : Serie) : List ReadingO :=
  s.map (fun r => ⟨r.year, r.month, some r.value⟩)

/-- Model of `final = final / namo * 100` of `velas_individual.plot_candle_perc`
lines 275-278, acting on one record: every OHLC column is divided by the NAMO
capacity and multiplied by 100. -/
def percOHLC (r : OHLC) (namo : ℚ) : OHLC :=
  ⟨r.open_ / namo * 100, r.high / namo * 100, r.low / namo * 100, r.close / namo * 100⟩

/-! ### `tabla_estatal.plot_table` -/

/-- One reservoir row of the day selected by `plot_table`: its state (derived
from the `nombreoficial` suffix through the `ENTIDADES` table) and its
`namoalmac` and `almacenaactual` columns. -/
structure Presa where
  estado : String
  namoalmac : ℚ
  almacenaactual : ℚ

/-- Per-state `almacenaactual` after `df.groupby("estado").sum()`. -/
def sumAlm (rows : List Presa) (e : String) : ℚ :=
  ((rows.filter (fun p => p.estado == e)).map (fun p => p.almacenaactual)).sum

/-- Per-state `namoalmac` after `df.groupby("estado").sum()`. -/
def sumNamo (rows : List Presa) (e : String) : ℚ :=
  ((rows.filter (fun p => p.estado == e)).map (fun p => p.namoalmac)).sum

/-- The distinct states appearing in the selected day's rows (the index of the
grouped frame). -/
def estadosDe (rows : List Presa) : List String :=
  (rows.map (fun p => p.estado)).dedup

/-- Model of `df["nivel"] = df["almacenaactual"] / df["namoalmac"] * 100`. -/
def nivel (alm namo : ℚ) : ℚ := alm / namo * 100

/-- The `nivel` cell of a state's row in the final table. -/
def nivelEstado (rows : List Presa) (e : String) : ℚ :=
  nivel (sumAlm rows e) (sumNamo rows e)

/-- The `almacenaactual` cell of the `Nacional` row:
`df.loc["Nacional"] = df.sum(axis=0)` sums the already-grouped per-state
values. -/
def nacionalAlm (rows : List Presa) : ℚ :=
  ((estadosDe rows).map (fun e => sumAlm rows e)).sum

/-- The `namoalmac` cell of the `Nacional` row. -/
def nacionalNamo (rows : List Presa) : ℚ :=
  ((estadosDe rows).map (fun e => sumNamo rows e)).sum

/-- The `nivel` cell of the `Nacional` row (computed by the same vectorised
division as every other row, after the row was appended). -/
def nivelNacional (rows : List Presa) : ℚ :=
  nivel (nacionalAlm rows) (nacionalNamo rows)

/-! ### `combinar_imagenes` (image stacking) -/

/-- A raster image: dimensions plus an RGB pixel function. -/
structure Img where
  width : Nat
  height : Nat
  px : Nat → Nat → Nat × Nat × Nat

/-- Model of `Image.new("RGB", (w, h))`: a black canvas. -/
def newRGB (w h : Nat) : Img := ⟨w, h, fun _ _ => (0, 0, 0)⟩

/-- Model of `canvas.paste(im=im, box=(x0, y0))`: copy `im`'s pixels onto the canvas
with its top-left corner at `(x0, y0)`, clipped to the canvas bounds; pixels
outside the pasted region keep their previous value. -/
def paste (canvas im : Img) (x0 y0 : Nat) : Img :=
  { canvas with
    px := fun x y =>
      if x0 ≤ x ∧ x < x0 + im.width ∧ y0 ≤ y ∧ y < y0 + im.height ∧
          x < canvas.width ∧ y < canvas.height then
        im.px (x - x0) (y - y0)
      else canvas.px x y }

/-- Model of `combinar_imagenes` of `velas_individual.py` lines 400-414 and
`velas_multiples.py` lines 519-533: a canvas of width 1280 and height
`imagen1.height + imagen2.height`, with `imagen1` pasted at `(0, 0)` and
`imagen2` pasted at `(0, imagen1.height)`. -/
def combinar_imagenes (imagen1 imagen2 : Img) : Img :=
  let resultado := newRGB 1280 (imagen1.height + imagen2.height)
  let resultado := paste resultado imagen1 0 0
  paste resultado imagen2 0 imagen1.height

/-- A one-reading daily series lying outside the loop's 2010-2024 year range:
a single total-storage reading in May 2009. -/
def serie2009 : Serie := [⟨2009, 5, 1⟩]

-- Sanity checks of the calendar model on concrete dates.
example : daysFromCivil 1970 1 1 = 0 := by decide
example : daysFromCivil 2024 1 1 = 19723 := by decide
example : civilFromDays 19723 = (2024, 1, 1) := by decide
example : civilFromDays (daysFromCivil 2024 2 29) = (2024, 2, 29) := by decide
example : daysFromCivil 2024 3 1 - daysFromCivil 2024 2 29 = 1 := by decide
example : daysFromCivil 2023 3 1 - daysFromCivil 2023 2 28 = 1 := by decide
example : formatDate (2024, 2, 3) = "2024-02-03" := by decide

/-! ### List helper lemmas -/

theorem le_foldl_max (xs : List ℚ) (a : ℚ) : a ≤ xs.foldl max a := by
  induction xs generalizing a with
  | nil => simp
  | cons x xs ih => exact le_trans (le_max_left a x) (ih (max a x))

theorem mem_le_foldl_max (xs : List ℚ) : ∀ (a v : ℚ), v ∈ xs → v ≤ xs.foldl max a := by
  induction xs with
  | nil => intro a v hv; cases hv
  | cons x xs ih =>
    intro a v hv
    rw [List.foldl_cons]
    rcases List.mem_cons.mp hv with h | h
    · subst h
      exact le_trans (le_max_right a v) (le_foldl_max xs (max a v))
    · exact ih (max a x) v h

theorem foldl_min_le (xs : List ℚ) (a : ℚ) : xs.foldl min a ≤ a := by
  induction xs generalizing a with
  | nil => simp
  | cons x xs ih => exact le_trans (ih (min a x)) (min_le_left a x)

theorem foldl_min_le_mem (xs : List ℚ) : ∀ (a v : ℚ), v ∈ xs → xs.foldl min a ≤ v := by
  induction xs with
  | nil => intro a v hv; cases hv
  | cons x xs ih =>
    intro a v hv
    rw [List.foldl_cons]
    rcases List.mem_cons.mp hv with h | h
    · subst h
      exact le_trans (foldl_min_le xs (min a v)) (min_le_right a v)
    · exact ih (min a x) v h

theorem foldl_max_mem (xs : List ℚ) : ∀ a : ℚ, xs.foldl max a ∈ a :: xs := by
  induction xs with
  | nil => intro a; simp
  | cons x xs ih =>
    intro a
    rw [List.foldl_cons]
    rcases List.mem_cons.mp (ih (max a x)) with h | h
    · rcases max_choice a x with hm | hm
      · rw [h, hm]; exact List.mem_cons_self _ _
      · rw [h, hm]; exact List.mem_cons.mpr (Or.inr (List.mem_cons_self _ _))
    · exact List.mem_cons.mpr (Or.inr (List.mem_cons.mpr (Or.inr h)))

theorem foldl_min_mem (xs : List ℚ) : ∀ a : ℚ, xs.foldl min a ∈ a :: xs := by
  induction xs with
  | nil => intro a; simp
  | cons x xs ih =>
    intro a
    rw [List.foldl_cons]
    rcases List.mem_cons.mp (ih (min a x)) with h | h
    · rcases min_choice a x with hm | hm
      · rw [h, hm]; exact List.mem_cons_self _ _
      · rw [h, hm]; exact List.mem_cons.mpr (Or.inr (List.mem_cons_self _ _))
    · exact List.mem_cons.mpr (Or.inr (List.mem_cons.mpr (Or.inr h)))

theorem mem_of_getLast?_eq {c : ℚ} {xs : List ℚ} (h : xs.getLast? = some c) :
    c ∈ xs := by
  rcases List.getLast?_eq_some_iff.mp h with ⟨ys, rfl⟩
  simp

/-! ### Facts about `buildRec` and the per-month loop -/

theorem buildRec_cons (x : ℚ) (rest : List ℚ) :
    ∃ c, (x :: rest).getLast? = some c ∧
      buildRec (x :: rest) = some ⟨x, rest.foldl max x, rest.foldl min x, c⟩ := by
  refine ⟨(x :: rest).getLast (by simp), List.getLast?_eq_getLast _ _, ?_⟩
  simp [buildRec, ilocFirst, ilocLast, maxVal, minVal, List.getLast?_eq_getLast]

theorem buildRec_eq_none_iff (xs : List ℚ) : buildRec xs = none ↔ xs = [] := by
  cases xs with
  | nil => simp [buildRec, ilocFirst]
  | cons x rest =>
    obtain ⟨c, _, hb⟩ := buildRec_cons x rest
    simp [hb]

theorem loopRecords_eq_filterMap (s : Serie) :
    loopRecords s = monthPairs.filterMap
      (fun ym => (buildRec (monthSlice s ym.1 ym.2)).map (fun r => ((ym.1, ym.2), r))) := by
  have h : ∀ (l : List (Nat × Nat)) (acc : List ((Nat × Nat) × OHLC)),
      l.foldl (fun acc ym =>
          match buildRec (monthSlice s ym.1 ym.2) with
          | some r => acc ++ [((ym.1, ym.2), r)]
          | none => acc) acc
        = acc ++ l.filterMap
            (fun ym => (buildRec (monthSlice s ym.1 ym.2)).map (fun r => ((ym.1, ym.2), r))) := by
    intro l
    induction l with
    | nil => simp
    | cons ym l ih =>
      intro acc
      cases hb : buildRec (monthSlice s ym.1 ym.2) with
      | none => simp [List.foldl_cons, List.filterMap_cons, hb, ih]
      | some r => simp [List.foldl_cons, List.filterMap_cons, hb, ih]
  simpa [loopRecords] using h monthPairs []

theorem mem_monthPairs {y m : Nat} (hy1 : 2010 ≤ y) (hy2 : y ≤ 2024)
    (hm1 : 1 ≤ m) (hm2 : m ≤ 12) : (y, m) ∈ monthPairs := by
  refine List.mem_flatMap.mpr ⟨y, List.mem_range'_1.mpr ⟨hy1, by omega⟩, ?_⟩
  exact List.mem_map.mpr ⟨m, List.mem_range'_1.mpr ⟨hm1, by omega⟩, rfl⟩

theorem max_is_max (x : ℚ) (rest : List ℚ) :
    rest.foldl max x ∈ x :: rest ∧ ∀ v ∈ x :: rest, v ≤ rest.foldl max x := by
  refine ⟨foldl_max_mem rest x, ?_⟩
  intro v hv
  rcases List.mem_cons.mp hv with h | h
  · exact h ▸ le_foldl_max rest x
  · exact mem_le_foldl_max rest x v h

theorem min_is_min (x : ℚ) (rest : List ℚ) :
    rest.foldl min x ∈ x :: rest ∧ ∀ v ∈ x :: rest, rest.foldl min x ≤ v := by
  refine ⟨foldl_min_mem rest x, ?_⟩
  intro v hv
  rcases List.mem_cons.mp hv with h | h
  · exact h ▸ foldl_min_le rest x
  · exact foldl_min_le_mem rest x v h

theorem ohlcFields_invariant (x : ℚ) (rest : List ℚ) (c : ℚ)
    (hc : (x :: rest).getLast? = some c) :
    rest.foldl min x ≤ x ∧ rest.foldl min x ≤ c ∧
      x ≤ rest.foldl max x ∧ c ≤ rest.foldl max x :=
  ⟨foldl_min_le rest x, (min_is_min x rest).2 c (mem_of_getLast?_eq hc),
    le_foldl_max rest x, (max_is_max x rest).2 c (mem_of_getLast?_eq hc)⟩

theorem resampleOHLC_of_filterMap_cons {s : List ReadingO} {y m : Nat} {x : ℚ}
    {rest : List ℚ} (hvs : (monthSliceO s y m).filterMap id = x :: rest) :
    ∃ c, (x :: rest).getLast? = some c ∧
      resampleOHLC s y m = some ⟨x, rest.foldl max x, rest.foldl min x, c⟩ := by
  refine ⟨(x :: rest).getLast (by simp), List.getLast?_eq_getLast _ _, ?_⟩
  simp only [resampleOHLC]
  rw [hvs]
  simp [maxVal, minVal, List.getLast?_eq_getLast]

theorem monthSliceO_toOpt (s : Serie) (y m : Nat) :
    monthSliceO (toOptSerie s) y m = (monthSlice s y m).map some := by
  simp only [monthSliceO, toOptSerie, monthSlice, List.filter_map, List.map_map]
  rfl

/-! ### Facts about the rolling median -/

theorem insertQ_perm (x : ℚ) (l : List ℚ) : List.Perm (insertQ x l) (x :: l) := by
  induction l with
  | nil => simp [insertQ]
  | cons y ys ih =>
    by_cases h : x ≤ y
    · simp [insertQ, h]
    · simp only [insertQ, if_neg h]
      exact ((ih.cons y).trans (List.Perm.swap x y ys))

theorem insertQ_sorted (x : ℚ) (l : List ℚ) (h : l.Sorted (fun a b => a ≤ b)) :
    (insertQ x l).Sorted (fun a b => a ≤ b) := by
  induction l with
  | nil => simp [insertQ]
  | cons y ys ih =>
    rcases List.sorted_cons.mp h with ⟨hy, hys⟩
    by_cases hxy : x ≤ y
    · rw [insertQ, if_pos hxy]
      refine List.sorted_cons.mpr ⟨?_, h⟩
      intro b hb
      rcases List.mem_cons.mp hb with rfl | hb
      · exact hxy
      · exact le_trans hxy (hy b hb)
    · rw [insertQ, if_neg hxy]
      refine List.sorted_cons.mpr ⟨?_, ih hys⟩
      intro b hb
      rcases List.mem_cons.mp ((insertQ_perm x ys).mem_iff.mp hb) with rfl | hb
      · exact le_of_not_le hxy
      · exact hy b hb

theorem sortQ_perm (l : List ℚ) : List.Perm (sortQ l) l := by
  induction l with
  | nil => simp [sortQ]
  | cons x xs ih => exact (insertQ_perm x (sortQ xs)).trans (ih.cons x)

theorem sortQ_sorted (l : List ℚ) : (sortQ l).Sorted (fun a b => a ≤ b) := by
  induction l with
  | nil => simp [sortQ]
  | cons x xs ih => exact insertQ_sorted x (sortQ xs) ih

theorem rolling7vals_getElem (xs : List ℚ) (i : Nat) (h : i < xs.length) :
    (rolling7vals xs)[i]?
      = some (if 6 ≤ i then some (median7 ((xs.drop (i - 6)).take 7)) else none) := by
  simp [rolling7vals, List.getElem?_range, h]

theorem smooth_projections :
    ∀ (as : List Reading) (bs : List (Option ℚ)), as.length = bs.length →
      (List.zipWith (fun (r : Reading) v => ReadingO.mk r.year r.month v) as bs).map
          (fun r => (r.year, r.month)) = as.map (fun r => (r.year, r.month)) ∧
      (List.zipWith (fun (r : Reading) v => ReadingO.mk r.year r.month v) as bs).map
          (fun r => r.value) = bs := by
  intro as
  induction as with
  | nil =>
    intro bs h
    cases bs with
    | nil => simp
    | cons b bs => simp at h
  | cons a as ih =>
    intro bs h
    cases bs with
    | nil => simp at h
    | cons b bs =>
      obtain ⟨h1, h2⟩ := ih bs (by simpa using h)
      simp [List.zipWith, h1, h2]

theorem rolling7vals_length (xs : List ℚ) : (rolling7vals xs).length = xs.length := by
  simp [rolling7vals]

/-! ### Facts about the downloader -/

theorem dias_eq (anio todayOrd todaySecs : Int) (h0 : 0 ≤ todaySecs)
    (h1 : todaySecs < 86400) :
    Int.fdiv (todayOrd * 86400 + todaySecs - daysFromCivil anio 1 1 * 86400) 86400
      = todayOrd - daysFromCivil anio 1 1 := by
  have harr : todayOrd * 86400 + todaySecs - daysFromCivil anio 1 1 * 86400
      = todaySecs + 86400 * (todayOrd - daysFromCivil anio 1 1) := by ring
  rw [harr, Int.fdiv_eq_ediv _ (by norm_num),
    Int.add_mul_ediv_left todaySecs (todayOrd - daysFromCivil anio 1 1) (by norm_num),
    Int.ediv_eq_zero_of_lt h0 h1, zero_add]

theorem fechasDescarga_eq (anio todayOrd todaySecs : Int) (h0 : 0 ≤ todaySecs)
    (h1 : todaySecs < 86400) :
    fechasDescarga anio todayOrd todaySecs
      = (List.range (todayOrd - daysFromCivil anio 1 1).toNat).map
          (fun i => formatDate (civilFromDays (daysFromCivil anio 1 1 + (i : Int)))) := by
  simp only [fechasDescarga]
  rw [dias_eq anio todayOrd todaySecs h0 h1]

theorem lookup_writeFile_ne (files : List (String × String)) (n c : String)
    {m : String} (hm : m ≠ n) :
    List.lookup m (writeFile files n c) = List.lookup m files := by
  induction files with
  | nil =>
    have hmn : (m == n) = false := by simpa [beq_iff_eq] using hm
    simp [writeFile, List.lookup_cons, hmn, List.lookup]
  | cons p ps ih =>
    cases p with
    | mk k v =>
      by_cases hk : k = n
      · subst hk
        have hmn : (m == k) = false := by simpa [beq_iff_eq] using hm
        simp [writeFile, List.lookup_cons, hmn]
      · rw [writeFile, if_neg hk]
        rw [List.lookup_cons, List.lookup_cons]
        cases h2 : m == k <;> simp [h2, ih]

theorem lookup_writeFile_self (files : List (String × String)) (n c : String) :
    List.lookup n (writeFile files n c) = some c := by
  induction files with
  | nil => simp [writeFile, List.lookup_cons]
  | cons p ps ih =>
    cases p with
    | mk k v =>
      by_cases hk : k = n
      · subst hk
        simp [writeFile, List.lookup_cons]
      · have hnk : (n == k) = false := by simpa [beq_iff_eq] using Ne.symm hk
        rw [writeFile, if_neg hk, List.lookup_cons]
        simp [hnk, ih]

theorem listing_writeFile (files : List (String × String)) (n c : String) :
    (writeFile files n c).map Prod.fst = files.map Prod.fst ∨
      (writeFile files n c).map Prod.fst = files.map Prod.fst ++ [n] := by
  induction files with
  | nil => right; simp [writeFile]
  | cons p ps ih =>
    cases p with
    | mk k v =>
      by_cases hk : k = n
      · subst hk
        left
        simp [writeFile]
      · rw [writeFile, if_neg hk]
        rcases ih with h | h
        · left
          simp [h]
        · right
          simp [h]

theorem mem_listing_writeFile_self (files : List (String × String)) (n c : String) :
    n ∈ (writeFile files n c).map Prod.fst := by
  induction files with
  | nil => simp [writeFile]
  | cons p ps ih =>
    cases p with
    | mk k v =>
      by_cases hk : k = n
      · subst hk
        simp [writeFile]
      · rw [writeFile, if_neg hk]
        simp [ih]

theorem mem_listing_writeFile_of_mem (files : List (String × String)) (n c : String)
    {m : String} (hm : m ∈ files.map Prod.fst) :
    m ∈ (writeFile files n c).map Prod.fst := by
  rcases listing_writeFile files n c with h | h <;> rw [h] <;> simp [hm]

/-! Fold lemmas for the download loop. -/

theorem pasoFold_requests (saved : List String) (fetch : String → String) :
    ∀ (l : List String) (st : List (String × String) × List String),
      (l.foldl (pasoDescarga saved fetch) st).2
        = st.2 ++ (l.filter (fun s => decide ((s ++ ".json") ∉ saved))).map urlFor := by
  intro l
  induction l with
  | nil => intro st; simp
  | cons s l ih =>
    intro st
    by_cases h : (s ++ ".json") ∈ saved
    · rw [List.foldl_cons]
      simp only [pasoDescarga, if_pos h]
      simp [ih st, h]
    · rw [List.foldl_cons]
      simp only [pasoDescarga, if_neg h]
      rw [ih]
      simp [h]

theorem pasoFold_preserves_saved (saved : List String) (fetch : String → String) :
    ∀ (l : List String) (st : List (String × String) × List String) (n : String),
      n ∈ saved →
      List.lookup n (l.foldl (pasoDescarga saved fetch) st).1 = List.lookup n st.1 := by
  intro l
  induction l with
  | nil => intro st n _; rfl
  | cons s l ih =>
    intro st n hn
    rw [List.foldl_cons]
    by_cases h : (s ++ ".json") ∈ saved
    · simp only [pasoDescarga, if_pos h]
      exact ih st n hn
    · simp only [pasoDescarga, if_neg h]
      rw [ih _ n hn]
      exact lookup_writeFile_ne st.1 _ _ (fun he => h (he ▸ hn))

theorem pasoFold_changes_only_dates (saved : List String) (fetch : String → String) :
    ∀ (l : List String) (st : List (String × String) × List String) (n : String),
      List.lookup n (l.foldl (pasoDescarga saved fetch) st).1 ≠ List.lookup n st.1 →
      n ∉ saved ∧ n ∈ l.map (fun s => s ++ ".json") := by
  intro l
  induction l with
  | nil => intro st n h; exact absurd rfl h
  | cons s l ih =>
    intro st n h
    rw [List.foldl_cons] at h
    by_cases hs : (s ++ ".json") ∈ saved
    · simp only [pasoDescarga, if_pos hs] at h
      obtain ⟨h1, h2⟩ := ih st n h
      exact ⟨h1, List.mem_map.mp h2 |>.elim fun a ha =>
        List.mem_map.mpr ⟨a, List.mem_cons.mpr (Or.inr ha.1), ha.2⟩⟩
    · simp only [pasoDescarga, if_neg hs] at h
      by_cases hn : n = s ++ ".json"
      · exact ⟨hn ▸ hs, List.mem_map.mpr ⟨s, List.mem_cons_self s l, hn.symm⟩⟩
      · have hw : List.lookup n (writeFile st.1 (s ++ ".json") (fetch (urlFor s)))
            = List.lookup n st.1 := lookup_writeFile_ne st.1 _ _ hn
        by_cases hch : List.lookup n (l.foldl (pasoDescarga saved fetch)
            (writeFile st.1 (s ++ ".json") (fetch (urlFor s)), st.2 ++ [urlFor s])).1
            = List.lookup n (writeFile st.1 (s ++ ".json") (fetch (urlFor s)),
              st.2 ++ [urlFor s]).1
        · rw [hch] at h
          exact absurd hw h
        · obtain ⟨h1, h2⟩ := ih _ n hch
          exact ⟨h1, List.mem_map.mp h2 |>.elim fun a ha =>
            List.mem_map.mpr ⟨a, List.mem_cons.mpr (Or.inr ha.1), ha.2⟩⟩

theorem pasoFold_keeps_content (saved : List String) (fetch : String → String) :
    ∀ (l : List String) (st : List (String × String) × List String) (s0 : String),
      List.lookup (s0 ++ ".json") st.1 = some (fetch (urlFor s0)) →
      List.lookup (s0 ++ ".json") (l.foldl (pasoDescarga saved fetch) st).1
        = some (fetch (urlFor s0)) := by
  intro l
  induction l with
  | nil => intro st s0 h; exact h
  | cons s l ih =>
    intro st s0 h
    rw [List.foldl_cons]
    by_cases hs : (s ++ ".json") ∈ saved
    · simp only [pasoDescarga, if_pos hs]
      exact ih st s0 h
    · simp only [pasoDescarga, if_neg hs]
      by_cases heq : s0 ++ ".json" = s ++ ".json"
      · have hdata : s0.data ++ (".json" : String).data
            = s.data ++ (".json" : String).data := by
          have h2 := congrArg String.data heq
          rwa [String.data_append, String.data_append] at h2
        obtain rfl : s0 = s := String.ext (List.append_cancel_right hdata)
        exact ih _ _ (lookup_writeFile_self st.1 _ _)
      · refine ih _ s0 ?_
        rw [lookup_writeFile_ne st.1 _ _ heq]
        exact h

theorem pasoFold_listing_mono (saved : List String) (fetch : String → String) :
    ∀ (l : List String) (st : List (String × String) × List String) (n : String),
      n ∈ st.1.map Prod.fst →
      n ∈ (l.foldl (pasoDescarga saved fetch) st).1.map Prod.fst := by
  intro l
  induction l with
  | nil => intro st n h; exact h
  | cons s l ih =>
    intro st n h
    rw [List.foldl_cons]
    by_cases hs : (s ++ ".json") ∈ saved
    · simp only [pasoDescarga, if_pos hs]
      exact ih st n h
    · simp only [pasoDescarga, if_neg hs]
      exact ih _ n (mem_listing_writeFile_of_mem st.1 _ _ h)

theorem pasoFold_covers_dates (saved : List String) (fetch : String → String) :
    ∀ (l : List String) (st : List (String × String) × List String),
      (∀ n ∈ saved, n ∈ st.1.map Prod.fst) →
      ∀ s ∈ l, (s ++ ".json") ∈ (l.foldl (pasoDescarga saved fetch) st).1.map Prod.fst := by
  intro l
  induction l with
  | nil => intro st _ s hs; cases hs
  | cons s l ih =>
    intro st hsub s2 hs2
    rw [List.foldl_cons]
    rcases List.mem_cons.mp hs2 with rfl | hmem
    · by_cases hs : (s2 ++ ".json") ∈ saved
      · simp only [pasoDescarga, if_pos hs]
        exact pasoFold_listing_mono saved fetch l st _ (hsub _ hs)
      · simp only [pasoDescarga, if_neg hs]
        exact pasoFold_listing_mono saved fetch l _ _
          (mem_listing_writeFile_self st.1 _ _)
    · by_cases hs : (s ++ ".json") ∈ saved
      · simp only [pasoDescarga, if_pos hs]
        exact ih st hsub s2 hmem
      · simp only [pasoDescarga, if_neg hs]
        exact ih _ (fun n hn => mem_listing_writeFile_of_mem st.1 _ _ (hsub n hn)) s2 hmem

theorem pasoFold_noop (saved : List String) (fetch : String → String) :
    ∀ (l : List String) (st : List (String × String) × List String),
      (∀ s ∈ l, (s ++ ".json") ∈ saved) →
      l.foldl (pasoDescarga saved fetch) st = st := by
  intro l
  induction l with
  | nil => intro st _; rfl
  | cons s l ih =>
    intro st h
    rw [List.foldl_cons]
    simp only [pasoDescarga, if_pos (h s (List.mem_cons_self s l))]
    exact ih st fun s2 hs2 => h s2 (List.mem_cons.mpr (Or.inr hs2))

theorem pasoFold_written (saved : List String) (fetch : String → String) :
    ∀ (l : List String) (st : List (String × String) × List String) (s0 : String),
      s0 ∈ l → (s0 ++ ".json") ∉ saved →
      List.lookup (s0 ++ ".json") (l.foldl (pasoDescarga saved fetch) st).1
        = some (fetch (urlFor s0)) := by
  intro l
  induction l with
  | nil => intro st s0 h _; cases h
  | cons s l ih =>
    intro st s0 hmem hns
    rw [List.foldl_cons]
    rcases List.mem_cons.mp hmem with rfl | hmem
    · simp only [pasoDescarga, if_neg hns]
      exact pasoFold_keeps_content saved fetch l _ s0
        (lookup_writeFile_self st.1 _ _)
    · by_cases hs : (s ++ ".json") ∈ saved
      · simp only [pasoDescarga, if_pos hs]
        exact ih st s0 hmem hns
      · simp only [pasoDescarga, if_neg hs]
        exact ih _ s0 hmem hns

/-! ### Facts about the CSV consolidation -/

theorem concat2_of_same_schema :
    ∀ (a b : DF), b.map Col.isText = a.map Col.isText →
      ∃ c, concat2 a b = some c ∧ c.map Col.isText = a.map Col.isText ∧
        ∀ j, textVals (colAt c j) = textVals (colAt a j) ++ textVals (colAt b j) ∧
          numVals (colAt c j) = numVals (colAt a j) ++ numVals (colAt b j) := by
  intro a
  induction a with
  | nil =>
    intro b h
    have hb : b = [] := by
      cases b with
      | nil => rfl
      | cons y ys => simp at h
    subst hb
    exact ⟨[], rfl, rfl, fun j => by simp [colAt, textVals, numVals]⟩
  | cons x a ih =>
    intro b h
    cases b with
    | nil => simp at h
    | cons y b =>
      simp only [List.map_cons, List.cons.injEq] at h
      obtain ⟨c0, hc0, hci, hct, hcn⟩ :
          ∃ c0, appendCol x y = some c0 ∧ Col.isText c0 = Col.isText x ∧
            textVals c0 = textVals x ++ textVals y ∧
            numVals c0 = numVals x ++ numVals y := by
        cases x <;> cases y <;>
          simp_all [Col.isText, appendCol, textVals, numVals]
      obtain ⟨cs, hcs, hsch, hcols⟩ := ih b h.2
      refine ⟨c0 :: cs, ?_, ?_, ?_⟩
      · simp [concat2, hc0, hcs]
      · simp [List.map_cons, hci, hsch]
      · intro j
        cases j with
        | zero => simpa [colAt] using ⟨hct, hcn⟩
        | succ j => simpa [colAt] using hcols j

theorem foldlM_concat2 :
    ∀ (ds : List DF) (d : DF), (∀ x ∈ ds, x.map Col.isText = d.map Col.isText) →
      ∃ res, List.foldlM concat2 d ds = some res ∧
        res.map Col.isText = d.map Col.isText ∧
        ∀ j, textVals (colAt res j)
              = textVals (colAt d j) ++ (ds.map (fun x => textVals (colAt x j))).flatten ∧
          numVals (colAt res j)
              = numVals (colAt d j) ++ (ds.map (fun x => numVals (colAt x j))).flatten := by
  intro ds
  induction ds with
  | nil => exact fun d _ => ⟨d, rfl, rfl, fun j => by simp⟩
  | cons x ds ih =>
    intro d hs
    obtain ⟨c, hc, hcsch, hccols⟩ := concat2_of_same_schema d x (hs x (by simp))
    obtain ⟨res, hres, hrsch, hrcols⟩ := ih c fun y hy =>
      ((hs y (by simp [hy])).trans hcsch.symm)
    refine ⟨res, ?_, hrsch.trans hcsch, fun j => ?_⟩
    · rw [List.foldlM_cons, hc]
      exact hres
    · obtain ⟨ht, hn⟩ := hrcols j
      obtain ⟨ht2, hn2⟩ := hccols j
      constructor
      · rw [ht, ht2]
        simp [List.append_assoc]
      · rw [hn, hn2]
        simp [List.append_assoc]

theorem colAt_stripDF : ∀ (df : DF) (j : Nat), colAt (stripDF df) j = stripCol (colAt df j) := by
  intro df
  induction df with
  | nil => intro j; simp [stripDF, colAt, stripCol]
  | cons c cs ihh =>
    intro j
    cases j with
    | zero => simp [stripDF, colAt]
    | succ j => simpa [stripDF, colAt] using ihh j

theorem stripDF_schema (df : DF) : (stripDF df).map Col.isText = df.map Col.isText := by
  rw [stripDF, List.map_map]
  exact List.map_congr_left fun c _ => by cases c <;> simp [stripCol, Col.isText]

/-! ### Facts about the grouped percentage table -/

theorem sum_ite_zero_of_not_mem (a : String) (v : ℚ) :
    ∀ L : List String, a ∉ L → (L.map (fun e => if a = e then v else 0)).sum = 0 := by
  intro L
  induction L with
  | nil => intro _; simp
  | cons e L ih =>
    intro h
    have h1 : a ≠ e := fun he => h (he ▸ List.mem_cons_self a L)
    have h2 : a ∉ L := fun hm => h (List.mem_cons.mpr (Or.inr hm))
    simp [h1, ih h2]

theorem sum_ite_single_of_nodup (a : String) (v : ℚ) :
    ∀ L : List String, L.Nodup → a ∈ L →
      (L.map (fun e => if a = e then v else 0)).sum = v := by
  intro L
  induction L with
  | nil => intro _ h; cases h
  | cons e L ih =>
    intro hnd hmem
    rcases List.mem_cons.mp hmem with rfl | hm
    · have : a ∉ L := (List.nodup_cons.mp hnd).1
      simp [sum_ite_zero_of_not_mem a v L this]
    · have h1 : a ≠ e := fun he => (List.nodup_cons.mp hnd).1 (he ▸ hm)
      simp [h1, ih (List.nodup_cons.mp hnd).2 hm]

theorem sum_filter_partition (f : Presa → ℚ) :
    ∀ (rows : List Presa) (L : List String), L.Nodup →
      (∀ r ∈ rows, r.estado ∈ L) →
      (L.map (fun e => ((rows.filter (fun p => p.estado == e)).map f).sum)).sum
        = (rows.map f).sum := by
  intro rows
  induction rows with
  | nil => intro L _ _; simp
  | cons r rows ih =>
    intro L hnd hmem
    have hstep : ∀ e ∈ L,
        (((r :: rows).filter (fun p => p.estado == e)).map f).sum
          = (if r.estado = e then f r else 0)
            + ((rows.filter (fun p => p.estado == e)).map f).sum := by
      intro e _
      by_cases h : r.estado = e
      · simp [List.filter_cons, h]
      · simp [List.filter_cons, h]
    rw [List.map_congr_left hstep, List.sum_map_add,
      ih L hnd (fun q hq => hmem q (List.mem_cons.mpr (Or.inr hq))),
      sum_ite_single_of_nodup r.estado (f r) L hnd (hmem r (List.mem_cons_self r rows))]
    simp

theorem nacionalAlm_eq_total (rows : List Presa) :
    nacionalAlm rows = (rows.map (fun p => p.almacenaactual)).sum := by
  rw [nacionalAlm]
  exact sum_filter_partition (fun p => p.almacenaactual) rows (estadosDe rows)
    (List.nodup_dedup _)
    (fun r hr => List.mem_dedup.mpr (List.mem_map.mpr ⟨r, hr, rfl⟩))

theorem nacionalNamo_eq_total (rows : List Presa) :
    nacionalNamo rows = (rows.map (fun p => p.namoalmac)).sum := by
  rw [nacionalNamo]
  exact sum_filter_partition (fun p => p.namoalmac) rows (estadosDe rows)
    (List.nodup_dedup _)
    (fun r hr => List.mem_dedup.mpr (List.mem_map.mpr ⟨r, hr, rfl⟩))

/-! ### Claim theorems -/

/-- Claim C5: `combinar_imagenes` composes exactly two images into one: the
result has height equal to the sum of the two input heights and fixed width
1280; the first image's pixels occupy the rows from 0 up to the first image's
height, and the second image's pixels are pasted starting at the row equal to
the first image's height, so the composition is a vertical stack with the
first image on top and no overlap. -/
theorem combinar_imagenes_stacks (imagen1 imagen2 : Img) :
    (combinar_imagenes imagen1 imagen2).width = 1280 ∧
    (combinar_imagenes imagen1 imagen2).height = imagen1.height + imagen2.height ∧
    (∀ x y, x < imagen1.width → x < 1280 → y < imagen1.height →
      (combinar_imagenes imagen1 imagen2).px x y = imagen1.px x y) ∧
    (∀ x y, x < imagen2.width → x < 1280 → y < imagen2.height →
      (combinar_imagenes imagen1 imagen2).px x (imagen1.height + y) = imagen2.px x y) := by
  refine ⟨rfl, rfl, ?_, ?_⟩
  · intro x y hx1 hx2 hy
    simp only [combinar_imagenes, paste, newRGB]
    rw [if_neg (by omega), if_pos (by omega)]
    simp
  · intro x y hx1 hx2 hy
    simp only [combinar_imagenes, paste, newRGB]
    rw [if_pos (by omega)]
    simp

/-- Claim C8: every OHLC record produced for a non-empty month satisfies the
candlestick invariant: low is less than or equal to both open and close, and
both open and close are less than or equal to high — in the explicit per-month
loop (`buildRec`) as well as in the resample aggregation (`resampleOHLC`). -/
theorem ohlc_candle_invariant :
    (∀ (xs : List ℚ) (r : OHLC), buildRec xs = some r →
      r.low ≤ r.open_ ∧ r.low ≤ r.close ∧ r.open_ ≤ r.high ∧ r.close ≤ r.high) ∧
    (∀ (s : List ReadingO) (y m : Nat) (r : OHLC), resampleOHLC s y m = some r →
      r.low ≤ r.open_ ∧ r.low ≤ r.close ∧ r.open_ ≤ r.high ∧ r.close ≤ r.high) := by
  constructor
  · intro xs r h
    cases xs with
    | nil => simp [buildRec, ilocFirst] at h
    | cons x rest =>
      obtain ⟨c, hc, hb⟩ := buildRec_cons x rest
      rw [hb] at h
      obtain rfl : (⟨x, rest.foldl max x, rest.foldl min x, c⟩ : OHLC) = r :=
        Option.some.inj h
      exact ohlcFields_invariant x rest c hc
  · intro s y m r h
    cases hvs : (monthSliceO s y m).filterMap id with
    | nil =>
      simp only [resampleOHLC] at h
      rw [hvs] at h
      simp at h
    | cons x rest =>
      obtain ⟨c, hc, hr⟩ := resampleOHLC_of_filterMap_cons hvs
      rw [hr] at h
      obtain rfl : (⟨x, rest.foldl max x, rest.foldl min x, c⟩ : OHLC) = r :=
        Option.some.inj h
      exact ohlcFields_invariant x rest c hc

/-- Witness for C8: the invariant at the record built from the concrete
month bucket `[1, 3, 2]`. -/
theorem ohlc_candle_invariant_witness :
    (⟨1, 3, 1, 2⟩ : OHLC).low ≤ (⟨1, 3, 1, 2⟩ : OHLC).open_ ∧
    (⟨1, 3, 1, 2⟩ : OHLC).low ≤ (⟨1, 3, 1, 2⟩ : OHLC).close ∧
    (⟨1, 3, 1, 2⟩ : OHLC).open_ ≤ (⟨1, 3, 1, 2⟩ : OHLC).high ∧
    (⟨1, 3, 1, 2⟩ : OHLC).close ≤ (⟨1, 3, 1, 2⟩ : OHLC).high :=
  ohlc_candle_invariant.1 [1, 3, 2] ⟨1, 3, 1, 2⟩ (by decide)

/-- Claim C9: the per-month loop never propagates an error: it is a total
fold over the `(year, month)` pairs of 2010-2024 in order, a month whose
record-building step fails (exactly the months with no readings) is silently
skipped, and the resulting rows are exactly the successfully built records in
`(year, month)` order. -/
theorem loop_skips_and_orders (s : Serie) :
    loopRecords s = monthPairs.filterMap
      (fun ym => (buildRec (monthSlice s ym.1 ym.2)).map (fun r => ((ym.1, ym.2), r))) ∧
    (∀ xs : List ℚ, buildRec xs = none ↔ xs = []) :=
  ⟨loopRecords_eq_filterMap s, buildRec_eq_none_iff⟩

/-- Claim C10: where both are defined, the explicit per-month loop and the
generic monthly resample-to-OHLC operation agree: for a month between January
2010 and December 2024 with at least one reading, the loop's record is also
the row the resample aggregation produces for that month on the same
(unsmoothed) series. -/
theorem loop_refines_resample (s : Serie) (y m : Nat) (hy1 : 2010 ≤ y)
    (hy2 : y ≤ 2024) (hm1 : 1 ≤ m) (hm2 : m ≤ 12) (hne : monthSlice s y m ≠ []) :
    ∃ r, buildRec (monthSlice s y m) = some r ∧ ((y, m), r) ∈ loopRecords s ∧
      resampleOHLC (toOptSerie s) y m = some r := by
  cases hsl : monthSlice s y m with
  | nil => exact absurd hsl hne
  | cons x rest =>
    obtain ⟨c, hc, hb⟩ := buildRec_cons x rest
    have hvs : (monthSliceO (toOptSerie s) y m).filterMap id = x :: rest := by
      rw [monthSliceO_toOpt, hsl]
      simp [List.filterMap_map]
    obtain ⟨c2, hc2, hr⟩ := resampleOHLC_of_filterMap_cons hvs
    have hce : c = c2 := Option.some.inj (hc.symm.trans hc2)
    subst hce
    refine ⟨⟨x, rest.foldl max x, rest.foldl min x, c⟩, hb, ?_, hr⟩
    rw [loopRecords_eq_filterMap]
    refine List.mem_filterMap.mpr ⟨(y, m), mem_monthPairs hy1 hy2 hm1 hm2, ?_⟩
    simp [hsl, hb]

/-- Witness for C10 at the concrete series with two May 2010 readings. -/
theorem loop_refines_resample_witness :
    ∃ r, buildRec (monthSlice [⟨2010, 5, 1⟩, ⟨2010, 5, 3⟩] 2010 5) = some r ∧
      ((2010, 5), r) ∈ loopRecords [⟨2010, 5, 1⟩, ⟨2010, 5, 3⟩] ∧
      resampleOHLC (toOptSerie [⟨2010, 5, 1⟩, ⟨2010, 5, 3⟩]) 2010 5 = some r :=
  loop_refines_resample [⟨2010, 5, 1⟩, ⟨2010, 5, 3⟩] 2010 5 (by decide) (by decide)
    (by decide) (by decide) (by decide)

/-- Claim C3 counterexample: the month bucket of May 2009 of the one-reading
series `serie2009` is non-empty, yet the explicit per-month loop (which only
iterates 2010 through 2024) produces no record at all, so the claim's
unrestricted "for every month bucket" fails on the loop pipeline. -/
theorem loop_drops_out_of_range_bucket :
    monthSlice serie2009 2009 5 ≠ [] ∧ loopRecords serie2009 = [] := by
  constructor
  · decide
  · decide

/-- Claim C3 (amended): for every month bucket with at least one reading that
the pipeline covers — any month from January 2010 through December 2024 for
the explicit per-month loop, and every month outright for the resample
aggregation — exactly one OHLC record is produced, whose open is the bucket's
first value, close its last value, high its maximum and low its minimum. -/
theorem monthly_ohlc_of_bucket :
    (∀ (s : Serie) (y m : Nat), 2010 ≤ y → y ≤ 2024 → 1 ≤ m → m ≤ 12 →
      monthSlice s y m ≠ [] →
      ∃ r, ((y, m), r) ∈ loopRecords s ∧
        (monthSlice s y m).head? = some r.open_ ∧
        (monthSlice s y m).getLast? = some r.close ∧
        r.high ∈ monthSlice s y m ∧ (∀ v ∈ monthSlice s y m, v ≤ r.high) ∧
        r.low ∈ monthSlice s y m ∧ (∀ v ∈ monthSlice s y m, r.low ≤ v)) ∧
    (∀ (s : List ReadingO) (y m : Nat),
      (monthSliceO s y m).filterMap id ≠ [] →
      ∃ r, resampleOHLC s y m = some r ∧
        ((monthSliceO s y m).filterMap id).head? = some r.open_ ∧
        ((monthSliceO s y m).filterMap id).getLast? = some r.close ∧
        r.high ∈ (monthSliceO s y m).filterMap id ∧
        (∀ v ∈ (monthSliceO s y m).filterMap id, v ≤ r.high) ∧
        r.low ∈ (monthSliceO s y m).filterMap id ∧
        (∀ v ∈ (monthSliceO s y m).filterMap id, r.low ≤ v)) := by
  constructor
  · intro s y m hy1 hy2 hm1 hm2 hne
    cases hsl : monthSlice s y m with
    | nil => exact absurd hsl hne
    | cons x rest =>
      obtain ⟨c, hc, hb⟩ := buildRec_cons x rest
      refine ⟨⟨x, rest.foldl max x, rest.foldl min x, c⟩, ?_, ?_, ?_, ?_, ?_, ?_, ?_⟩
      · rw [loopRecords_eq_filterMap]
        refine List.mem_filterMap.mpr ⟨(y, m), mem_monthPairs hy1 hy2 hm1 hm2, ?_⟩
        simp [hsl, hb]
      · rfl
      · exact hc
      · exact (max_is_max x rest).1
      · exact (max_is_max x rest).2
      · exact (min_is_min x rest).1
      · exact (min_is_min x rest).2
  · intro s y m hne
    cases hvs : (monthSliceO s y m).filterMap id with
    | nil => exact absurd hvs hne
    | cons x rest =>
      obtain ⟨c, hc, hr⟩ := resampleOHLC_of_filterMap_cons hvs
      refine ⟨⟨x, rest.foldl max x, rest.foldl min x, c⟩, hr, ?_, ?_, ?_, ?_, ?_, ?_⟩
      · rfl
      · exact hc
      · exact (max_is_max x rest).1
      · exact (max_is_max x rest).2
      · exact (min_is_min x rest).1
      · exact (min_is_min x rest).2

/-- Witness for the amended C3 at the concrete series with two May 2010
readings. -/
theorem monthly_ohlc_of_bucket_witness :
    ∃ r, ((2010, 5), r) ∈ loopRecords [⟨2010, 5, 1⟩, ⟨2010, 5, 3⟩] ∧
      (monthSlice [⟨2010, 5, 1⟩, ⟨2010, 5, 3⟩] 2010 5).head? = some r.open_ ∧
      (monthSlice [⟨2010, 5, 1⟩, ⟨2010, 5, 3⟩] 2010 5).getLast? = some r.close ∧
      r.high ∈ monthSlice [⟨2010, 5, 1⟩, ⟨2010, 5, 3⟩] 2010 5 ∧
      (∀ v ∈ monthSlice [⟨2010, 5, 1⟩, ⟨2010, 5, 3⟩] 2010 5, v ≤ r.high) ∧
      r.low ∈ monthSlice [⟨2010, 5, 1⟩, ⟨2010, 5, 3⟩] 2010 5 ∧
      (∀ v ∈ monthSlice [⟨2010, 5, 1⟩, ⟨2010, 5, 3⟩] 2010 5, r.low ≤ v) :=
  monthly_ohlc_of_bucket.1 [⟨2010, 5, 1⟩, ⟨2010, 5, 3⟩] 2010 5 (by decide) (by decide)
    (by decide) (by decide) (by decide)

/-- Claim C7: in the `velas_multiples` candlestick pipeline the daily
total-storage series is smoothed by a 7-element rolling median before the
monthly OHLC resample: the smoothed series keeps the dates, its first six
positions are undefined, and every later position `i` holds the median (the
middle value of a sorted permutation) of the values at positions
`i - 6, ..., i` — that day's value and the six preceding values. -/
theorem smoothing_before_resample :
    (∀ (s : Serie) (y m : Nat), velasMultiplesOHLC s y m = resampleOHLC (smooth s) y m) ∧
    (∀ s : Serie, (smooth s).map (fun r => (r.year, r.month))
        = s.map (fun r => (r.year, r.month))) ∧
    (∀ s : Serie, (smooth s).map (fun r => r.value)
        = rolling7vals (s.map (fun r => r.value))) ∧
    (∀ (xs : List ℚ) (i : Nat), i < 6 → i < xs.length →
      (rolling7vals xs)[i]? = some none) ∧
    (∀ (xs : List ℚ) (i : Nat), 6 ≤ i → i < xs.length →
      (rolling7vals xs)[i]? = some (some (median7 ((xs.drop (i - 6)).take 7))) ∧
      ((xs.drop (i - 6)).take 7).length = 7 ∧
      (∀ k, k < 7 → ((xs.drop (i - 6)).take 7)[k]? = xs[i - 6 + k]?)) ∧
    (∀ xs : List ℚ, List.Perm (sortQ xs) xs ∧ (sortQ xs).Sorted (fun a b => a ≤ b)) := by
  refine ⟨fun _ _ _ => rfl, ?_, ?_, ?_, ?_, fun xs => ⟨sortQ_perm xs, sortQ_sorted xs⟩⟩
  · intro s
    exact (smooth_projections s (rolling7vals (s.map (fun r => r.value)))
      (by rw [rolling7vals_length, List.length_map])).1
  · intro s
    exact (smooth_projections s (rolling7vals (s.map (fun r => r.value)))
      (by rw [rolling7vals_length, List.length_map])).2
  · intro xs i hi hlen
    rw [rolling7vals_getElem xs i hlen, if_neg (by omega)]
  · intro xs i hi hlen
    refine ⟨by rw [rolling7vals_getElem xs i hlen, if_pos hi], ?_, ?_⟩
    · rw [List.length_take, List.length_drop]
      omega
    · intro k hk
      rw [List.getElem?_take, if_pos hk, List.getElem?_drop]

/-- Witness for C7: the rolling-median facts applied at the concrete series
of nine January 2010 readings with values 0 through 8. -/
theorem smoothing_before_resample_witness :
    (rolling7vals ((List.range 9).map (fun i => (i : ℚ))))[2]? = some none ∧
    (rolling7vals ((List.range 9).map (fun i => (i : ℚ))))[8]?
      = some (some (median7 (((((List.range 9).map (fun i => (i : ℚ)))).drop 2).take 7))) := by
  constructor
  · exact smoothing_before_resample.2.2.2.1 _ 2 (by decide) (by decide)
  · exact (smoothing_before_resample.2.2.2.2.1 _ 8 (by decide) (by decide)).1

/-- Claim C1: `descargar` writes a file for a date only if that date's file
name was absent from the `./archivos` listing taken at the start of the call;
every file present at the start keeps its contents (it is neither
re-downloaded nor overwritten); and a second run in succession (same current
date, any later time of day, any server responses) writes nothing and issues
no request, leaving every file written by the first run unchanged. -/
theorem descargar_skips_existing (anio todayOrd todaySecs todaySecs2 : Int)
    (fetch fetch2 : String → String) (files : List (String × String))
    (h0 : 0 ≤ todaySecs) (h1 : todaySecs < 86400)
    (h2 : 0 ≤ todaySecs2) (h3 : todaySecs2 < 86400) :
    (∀ n ∈ files.map Prod.fst,
      List.lookup n (descargar anio todayOrd todaySecs fetch files).1
        = List.lookup n files) ∧
    (∀ n, List.lookup n (descargar anio todayOrd todaySecs fetch files).1
        ≠ List.lookup n files →
      n ∉ files.map Prod.fst ∧
        n ∈ (fechasDescarga anio todayOrd todaySecs).map (fun s => s ++ ".json")) ∧
    descargar anio todayOrd todaySecs2 fetch2
        (descargar anio todayOrd todaySecs fetch files).1
      = ((descargar anio todayOrd todaySecs fetch files).1, []) := by
  refine ⟨?_, ?_, ?_⟩
  · intro n hn
    exact pasoFold_preserves_saved (files.map Prod.fst) fetch
      (fechasDescarga anio todayOrd todaySecs) (files, []) n hn
  · intro n hch
    exact pasoFold_changes_only_dates (files.map Prod.fst) fetch
      (fechasDescarga anio todayOrd todaySecs) (files, []) n hch
  · show (fechasDescarga anio todayOrd todaySecs2).foldl
        (pasoDescarga ((descargar anio todayOrd todaySecs fetch files).1.map Prod.fst)
          fetch2)
        ((descargar anio todayOrd todaySecs fetch files).1, [])
      = ((descargar anio todayOrd todaySecs fetch files).1, [])
    refine pasoFold_noop _ fetch2 _ _ ?_
    intro s hs
    have hs1 : s ∈ fechasDescarga anio todayOrd todaySecs := by
      rw [fechasDescarga_eq anio todayOrd todaySecs h0 h1]
      rw [fechasDescarga_eq anio todayOrd todaySecs2 h2 h3] at hs
      exact hs
    exact pasoFold_covers_dates (files.map Prod.fst) fetch
      (fechasDescarga anio todayOrd todaySecs) (files, []) (fun n hn => hn) s hs1

/-- Witness for C1: on 2024-01-03 with `2024-01-02.json` already cached, the
cached file keeps its contents and the immediate second run is a no-op. -/
theorem descargar_skips_existing_witness :
    List.lookup "2024-01-02.json"
        (descargar 2024 (daysFromCivil 2024 1 3) 0 (fun u => u)
          [("2024-01-02.json", "old")]).1
      = List.lookup "2024-01-02.json" [("2024-01-02.json", "old")] ∧
    descargar 2024 (daysFromCivil 2024 1 3) 3600 (fun u => u ++ "!")
        (descargar 2024 (daysFromCivil 2024 1 3) 0 (fun u => u)
          [("2024-01-02.json", "old")]).1
      = ((descargar 2024 (daysFromCivil 2024 1 3) 0 (fun u => u)
          [("2024-01-02.json", "old")]).1, []) := by
  have h := descargar_skips_existing 2024 (daysFromCivil 2024 1 3) 0 3600
    (fun u => u) (fun u => u ++ "!") [("2024-01-02.json", "old")]
    (by norm_num) (by norm_num) (by norm_num) (by norm_num)
  exact ⟨h.1 "2024-01-02.json" (by decide), h.2.2⟩

/-- Claim C2: `descargar(año)` enumerates exactly the consecutive calendar
days from January 1 of `año` up to the day before the current date, in
ascending order, each formatted as `YYYY-MM-DD` with zero-padded month and
day; it issues exactly one GET (in order) for each enumerated date whose file
is not cached, persists the raw response body under that date's file name,
and issues no other request; if the current date is on or before January 1 of
`año`, it enumerates no dates and issues no requests. -/
theorem descargar_enumerates_days (anio todayOrd todaySecs : Int)
    (fetch : String → String) (files : List (String × String))
    (h0 : 0 ≤ todaySecs) (h1 : todaySecs < 86400) :
    fechasDescarga anio todayOrd todaySecs
      = (List.range (todayOrd - daysFromCivil anio 1 1).toNat).map
          (fun i => formatDate (civilFromDays (daysFromCivil anio 1 1 + (i : Int)))) ∧
    (todayOrd ≤ daysFromCivil anio 1 1 →
      fechasDescarga anio todayOrd todaySecs = []) ∧
    (descargar anio todayOrd todaySecs fetch files).2
      = ((fechasDescarga anio todayOrd todaySecs).filter
          (fun s => decide ((s ++ ".json") ∉ files.map Prod.fst))).map urlFor ∧
    (∀ s ∈ fechasDescarga anio todayOrd todaySecs,
      (s ++ ".json") ∉ files.map Prod.fst →
      List.lookup (s ++ ".json") (descargar anio todayOrd todaySecs fetch files).1
        = some (fetch (urlFor s))) ∧
    (∀ y m d : Int, formatDate (y, m, d) = toString y ++ "-" ++ zfill2 m ++ "-" ++ zfill2 d) ∧
    (∀ n : Int, 1 ≤ n → n ≤ 31 → (zfill2 n).length = 2) := by
  refine ⟨fechasDescarga_eq anio todayOrd todaySecs h0 h1, ?_, ?_, ?_, fun y m d => rfl, ?_⟩
  · intro hle
    rw [fechasDescarga_eq anio todayOrd todaySecs h0 h1,
      Int.toNat_of_nonpos (by omega)]
    rfl
  · exact pasoFold_requests (files.map Prod.fst) fetch
      (fechasDescarga anio todayOrd todaySecs) (files, [])
  · intro s hs hnc
    exact pasoFold_written (files.map Prod.fst) fetch
      (fechasDescarga anio todayOrd todaySecs) (files, []) s hs hnc
  · intro n hn1 hn2
    interval_cases n <;> decide

/-- Witness for C2: three days into 2024 at 01:00, the enumerated dates are
January 1 and 2 of 2024, and the month field is zero-padded. -/
theorem descargar_enumerates_days_witness :
    fechasDescarga 2024 (daysFromCivil 2024 1 3) 3600
      = (List.range ((daysFromCivil 2024 1 3) - daysFromCivil 2024 1 1).toNat).map
          (fun i => formatDate (civilFromDays (daysFromCivil 2024 1 1 + (i : Int)))) ∧
    (zfill2 7).length = 2 := by
  have h := descargar_enumerates_days 2024 (daysFromCivil 2024 1 3) 3600
    (fun u => u) [] (by norm_num) (by norm_num)
  exact ⟨h.1, h.2.2.2.2.2 7 (by norm_num) (by norm_num)⟩

/-- Claim C4: percentage-of-capacity is always stored volume divided by NAMO
capacity times 100: each state's level divides the state's summed
`almacenaactual` by its summed `namoalmac`, the `Nacional` row's level is
computed the same way from the nationwide sums over all reservoirs (not as an
average of state percentages), a group whose stored volume equals its NAMO
capacity has a level of exactly 100, and the percentage candlestick divides
every OHLC column by the NAMO capacity and multiplies by 100. -/
theorem percentage_of_capacity :
    (∀ (rows : List Presa) (e : String),
      nivelEstado rows e = sumAlm rows e / sumNamo rows e * 100) ∧
    (∀ rows : List Presa,
      nacionalAlm rows = (rows.map (fun p => p.almacenaactual)).sum ∧
      nacionalNamo rows = (rows.map (fun p => p.namoalmac)).sum ∧
      nivelNacional rows
        = (rows.map (fun p => p.almacenaactual)).sum
            / (rows.map (fun p => p.namoalmac)).sum * 100) ∧
    (∀ alm namo : ℚ, alm = namo → namo ≠ 0 → nivel alm namo = 100) ∧
    (∀ (r : OHLC) (namo : ℚ),
      percOHLC r namo
        = ⟨nivel r.open_ namo, nivel r.high namo, nivel r.low namo,
            nivel r.close namo⟩) := by
  refine ⟨fun rows e => rfl, fun rows => ?_, fun alm namo h hn => ?_, fun r namo => rfl⟩
  · refine ⟨nacionalAlm_eq_total rows, nacionalNamo_eq_total rows, ?_⟩
    rw [nivelNacional, nivel, nacionalAlm_eq_total, nacionalNamo_eq_total]
  · rw [nivel, h, div_self hn, one_mul]

/-- Witness for C4: a two-state table where each reservoir is full, checked
through the theorem at a concrete input. -/
theorem percentage_of_capacity_witness : nivel 25 25 = 100 :=
  percentage_of_capacity.2.2.1 25 25 rfl (by norm_num)

/-- Claim C6: `combinar(año)` round-trips the daily data: when the files of
`./archivos` whose name contains the year string are `d :: ds` (in
directory-listing order) and they share one column schema, the consolidated
table is exactly their rows stacked in that order, with every text-typed
column's values whitespace-stripped and every numeric column's values
unchanged. -/
theorem combinar_roundtrip (anio : Int) (archivos : List (String × DF)) (d : DF)
    (ds : List DF)
    (hsel : (archivos.filter (fun a => strContains a.1 (toString anio))).map Prod.snd
      = d :: ds)
    (hsch : ∀ x ∈ ds, x.map Col.isText = d.map Col.isText) :
    ∃ res, combinar anio archivos = some res ∧
      res.map Col.isText = d.map Col.isText ∧
      ∀ j, textVals (colAt res j)
            = (((d :: ds).map (fun x => textVals (colAt x j))).flatten).map pyStrip ∧
        numVals (colAt res j) = ((d :: ds).map (fun x => numVals (colAt x j))).flatten := by
  obtain ⟨r0, hr0, hsch0, hcols0⟩ := foldlM_concat2 ds d hsch
  refine ⟨stripDF r0, ?_, (stripDF_schema r0).trans hsch0, ?_⟩
  · rw [combinar, hsel]
    show (concatAll (d :: ds)).map stripDF = some (stripDF r0)
    rw [concatAll, hr0]
    rfl
  · intro j
    rw [colAt_stripDF]
    obtain ⟨ht, hn⟩ := hcols0 j
    constructor
    · have hsc : ∀ c : Col, textVals (stripCol c) = (textVals c).map pyStrip := by
        intro c
        cases c <;> simp [stripCol, textVals]
      rw [hsc, ht]
      simp
    · have hsc : ∀ c : Col, numVals (stripCol c) = numVals c := by
        intro c
        cases c <;> simp [stripCol, numVals]
      rw [hsc, hn]
      simp

/-- Witness for C6: one matching file (and one non-matching file) with a text
and a numeric column. -/
theorem combinar_roundtrip_witness :
    ∃ res, combinar 2024
        [("2024-01-01.json", [Col.text ["  a "], Col.num [1]]),
          ("nope.json", [Col.text ["z"], Col.num [9]])] = some res ∧
      res.map Col.isText = [Col.text ["  a "], Col.num [(1 : ℚ)]].map Col.isText ∧
      ∀ j, textVals (colAt res j)
            = ((([[Col.text ["  a "], Col.num [1]]].map
                (fun x => textVals (colAt x j)))).flatten).map pyStrip ∧
        numVals (colAt res j)
            = (([[Col.text ["  a "], Col.num [1]]].map
                (fun x => numVals (colAt x j)))).flatten :=
  combinar_roundtrip 2024
    [("2024-01-01.json", [Col.text ["  a "], Col.num [1]]),
      ("nope.json", [Col.text ["z"], Col.num [9]])]
    [Col.text ["  a "], Col.num [1]] [] (by decide) (by intro x hx; cases hx)

/-- Witness for C5 at concrete images. -/
theorem combinar_imagenes_stacks_witness :
    (combinar_imagenes ⟨1280, 2, fun _ _ => (1, 1, 1)⟩ ⟨1280, 3, fun _ _ => (2, 2, 2)⟩).px 5 1
        = (1, 1, 1) ∧
    (combinar_imagenes ⟨1280, 2, fun _ _ => (1, 1, 1)⟩ ⟨1280, 3, fun _ _ => (2, 2, 2)⟩).px 5 (2 + 0)
        = (2, 2, 2) := by
  constructor
  · exact (combinar_imagenes_stacks ⟨1280, 2, fun _ _ => (1, 1, 1)⟩
      ⟨1280, 3, fun _ _ => (2, 2, 2)⟩).2.2.1 5 1 (by decide) (by decide) (by decide)
  · exact (combinar_imagenes_stacks ⟨1280, 2, fun _ _ => (1, 1, 1)⟩
      ⟨1280, 3, fun _ _ => (2, 2, 2)⟩).2.2.2 5 0 (by decide) (by decide) (by decide)

end Conagua
